import Mathlib

/-!
Shallow embedding of `wa/instruments/cpu_load_poller/cpu_load_poller.c`
(the fixed-interval per-core CPU load sampler) together with theorems about
its behaviour.

Modelling conventions:
* `unsigned long long` values are `Nat` reduced modulo `2 ^ 64` wherever the
  C arithmetic can wrap (`ullMod` below).
* C `double` arithmetic is modelled as exact rational arithmetic over `ℚ`;
  every property proved here concerns values and formatting that are
  insensitive to this abstraction (exact zeros and a value that is exactly
  representable after two-decimal rounding).
* The counter file is modelled as a list of lines (`List (List Char)`); each
  call that re-reads the file receives the content visible at that moment.
  `fgets` line splitting beyond 255 characters is not modelled (no statement
  here involves longer lines).
* The per-core state array `cpu_data_t *` is modelled as an unbounded memory
  `Nat → cpu_data_t` so that out-of-bounds writes would be representable;
  frame theorems then show the parser never touches indices past its bound.
-/

/-- Modulus of C `unsigned long long` arithmetic (64-bit). -/
def ullMod : Nat := 2 ^ 64

/-- The ten cumulative per-core counters of one `/proc/stat` snapshot,
mirroring `cpu_stats_t` in the C source. -/
structure cpu_stats_t where
  user : Nat
  nice : Nat
  system : Nat
  idle : Nat
  iowait : Nat
  irq : Nat
  softirq : Nat
  steal : Nat
  guest : Nat
  guest_nice : Nat
deriving DecidableEq, Repr

/-- Two generations of snapshots for one core, mirroring `cpu_data_t`. -/
structure cpu_data_t where
  current : cpu_stats_t
  previous : cpu_stats_t
deriving DecidableEq, Repr

/-- Sum of all ten counters, as computed by `get_total_time` (u64 wrap). -/
def get_total_time (s : cpu_stats_t) : Nat :=
  (s.user + s.nice + s.system + s.idle + s.iowait + s.irq + s.softirq +
    s.steal + s.guest + s.guest_nice) % ullMod

/-- Idle time `idle + iowait`, as computed by `get_idle_time` (u64 wrap). -/
def get_idle_time (s : cpu_stats_t) : Nat :=
  (s.idle + s.iowait) % ullMod

/-- Unsigned 64-bit subtraction `a - b` (the C expressions
`total_current - total_previous` and `idle_current - idle_previous`).
Both arguments are already reduced modulo `2 ^ 64` at every call site. -/
def usub (a b : Nat) : Nat :=
  (a % ullMod + ullMod - b % ullMod) % ullMod

/-- `calculate_cpu_load`: zero-division guard, then
`100.0 * (1.0 - idle_diff / total_diff)` (doubles modelled as `ℚ`). -/
def calculate_cpu_load (current previous : cpu_stats_t) : ℚ :=
  if usub (get_total_time current) (get_total_time previous) = 0 then 0
  else
    100 * (1 - (usub (get_idle_time current) (get_idle_time previous) : ℚ) /
      (usub (get_total_time current) (get_total_time previous) : ℚ))

/-- C `isspace` characters (default locale), used by `sscanf` conversions. -/
def isSpaceC (ch : Char) : Bool :=
  ch == ' ' || ch == '\t' || ch == '\n' || ch == '\r' || ch == '\x0b' || ch == '\x0c'

/-- Drop leading whitespace, as every numeric `sscanf` conversion does. -/
def dropWs : List Char → List Char
  | [] => []
  | ch :: cs => if isSpaceC ch then dropWs cs else ch :: cs

/-- Greedily consume decimal digits, accumulating their value. -/
def takeDigits : List Char → Nat → Nat × List Char
  | [], acc => (acc, [])
  | ch :: cs, acc =>
    if ch.isDigit then takeDigits cs (acc * 10 + (ch.toNat - '0'.toNat))
    else (acc, ch :: cs)

/-- A digit string (at least one digit) and its value; `none` on no digit. -/
def scanNat (cs : List Char) : Option (Nat × List Char) :=
  match cs with
  | [] => none
  | ch :: cs1 =>
    if ch.isDigit then some (takeDigits cs1 (ch.toNat - '0'.toNat)) else none

/-- The `%d` conversion: skip whitespace, optional sign, digits. -/
def scanD (cs : List Char) : Option (Int × List Char) :=
  match dropWs cs with
  | '-' :: cs2 => (scanNat cs2).map (fun r => (-(r.1 : Int), r.2))
  | '+' :: cs2 => (scanNat cs2).map (fun r => ((r.1 : Int), r.2))
  | cs1 => (scanNat cs1).map (fun r => ((r.1 : Int), r.2))

/-- The `%llu` conversion: skip whitespace, optional sign (per `strtoull`),
digits; value reduced modulo `2 ^ 64`. -/
def scanLLU (cs : List Char) : Option (Nat × List Char) :=
  match dropWs cs with
  | '-' :: cs2 => (scanNat cs2).map (fun r => ((ullMod - r.1 % ullMod) % ullMod, r.2))
  | '+' :: cs2 => (scanNat cs2).map (fun r => (r.1 % ullMod, r.2))
  | cs1 => (scanNat cs1).map (fun r => (r.1 % ullMod, r.2))

/-- Match the literal (non-whitespace) characters of a format string. -/
def matchLit : List Char → List Char → Option (List Char)
  | [], cs => some cs
  | p :: ps, ch :: cs => if ch = p then matchLit ps cs else none
  | _ :: _, [] => none

/-- The prefix `"cpu%d"` of both `sscanf` formats: literal `cpu` followed by
a `%d` conversion (which itself skips leading whitespace). -/
def scan_cpu_tag (cs : List Char) : Option (Int × List Char) :=
  (matchLit ['c', 'p', 'u'] cs).bind scanD

/-- `count_cpus`: one pass over the lines, counting those on which
`sscanf(line, "cpu%d", &cpu_id)` returns 1. -/
def count_cpus (lines : List (List Char)) : Nat :=
  lines.foldl (fun acc l => if (scan_cpu_tag l).isSome then acc + 1 else acc) 0

/-- Successive `%llu` conversions (at most `k`), as `sscanf` performs them:
stop at the first failing conversion, returning the values stored so far. -/
def scanVals : Nat → List Char → List Nat
  | 0, _ => []
  | k + 1, cs =>
    match scanLLU cs with
    | none => []
    | some r => r.1 :: scanVals k r.2

/-- One line against the full format
`"cpu%d %llu %llu %llu %llu %llu %llu %llu %llu %llu %llu"`:
the number of successful conversions (`sscanf`'s return value) and the stat
values converted — and hence stored into the struct — before any failure. -/
def scanStatVals (cs : List Char) : Nat × List Nat :=
  match scan_cpu_tag cs with
  | none => (0, [])
  | some r => (1 + (scanVals 10 r.2).length, scanVals 10 r.2)

/-- Store the converted values into the struct fields in format order.
`sscanf` stores each value as it is converted, so a partially matched line
overwrites exactly the leading fields. -/
def setStats : List Nat → cpu_stats_t → cpu_stats_t
  | [], s => s
  | [a], s => { s with user := a }
  | [a, b], s => { s with user := a, nice := b }
  | [a, b, c], s => { s with user := a, nice := b, system := c }
  | [a, b, c, d], s => { s with user := a, nice := b, system := c, idle := d }
  | [a, b, c, d, e], s =>
    { s with user := a, nice := b, system := c, idle := d, iowait := e }
  | [a, b, c, d, e, f], s =>
    { s with user := a, nice := b, system := c, idle := d, iowait := e, irq := f }
  | [a, b, c, d, e, f, g], s =>
    { s with user := a, nice := b, system := c, idle := d, iowait := e,
             irq := f, softirq := g }
  | [a, b, c, d, e, f, g, h], s =>
    { s with user := a, nice := b, system := c, idle := d, iowait := e,
             irq := f, softirq := g, steal := h }
  | [a, b, c, d, e, f, g, h, i], s =>
    { s with user := a, nice := b, system := c, idle := d, iowait := e,
             irq := f, softirq := g, steal := h, guest := i }
  | a :: b :: c :: d :: e :: f :: g :: h :: i :: j :: _, _ =>
    ⟨a, b, c, d, e, f, g, h, i, j⟩

/-- The per-core state array, modelled as an unbounded memory. -/
abbrev Mem : Type := Nat → cpu_data_t

/-- Pointwise update of the memory at one index. -/
def memUpd (m : Mem) (i : Nat) (d : cpu_data_t) : Mem :=
  fun j => if j = i then d else m j

/-- The loop of `parse_cpu_stats`: for each line while `cpu_count < num_cpus`,
`sscanf` the line into `cpu_data[cpu_count].current` (storing the leading
fields even on a partial match) and increment `cpu_count` only when all 11
conversions succeeded. -/
def parseGo (num_cpus : Nat) : List (List Char) → Nat → Mem → Nat × Mem
  | [], c, m => (c, m)
  | l :: ls, c, m =>
    if c < num_cpus then
      parseGo num_cpus ls (if (scanStatVals l).1 = 11 then c + 1 else c)
        (memUpd m c ⟨setStats (scanStatVals l).2 ((m c).current), (m c).previous⟩)
    else (c, m)

/-- `parse_cpu_stats(file, cpu_data, num_cpus)`: rewind, scan the lines. -/
def parse_cpu_stats (lines : List (List Char)) (m : Mem) (num_cpus : Nat) :
    Nat × Mem :=
  parseGo num_cpus lines 0 m

/-- All-zero snapshot (the `calloc` initial state of each snapshot). -/
def zeroStats : cpu_stats_t := ⟨0, 0, 0, 0, 0, 0, 0, 0, 0, 0⟩

/-- The freshly `calloc`ed per-core state array: everything zero. -/
def zeroMem : Mem := fun _ => ⟨zeroStats, zeroStats⟩

/-- The `cpu_data[i].previous = cpu_data[i].current` loop over `i < n`,
performed once after the initial read and at the end of every tick. -/
def copyPrev (n : Nat) (m : Mem) : Mem :=
  fun i => if i < n then ⟨(m i).current, (m i).current⟩ else m i

/-- Left-pad the decimal representation of `n` with zeros to `k` digits
(the fractional part of a fixed-point `printf`). -/
def padZeros (k n : Nat) : String :=
  String.mk (List.replicate (k - (toString n).length) '0') ++ toString n

/-- `printf("%.*f")` for a non-negative rational: round to `dec` decimal
places (to nearest, exactly as the C library does for the values arising in
this development, which are never on a rounding tie). -/
def formatFixedNN (dec : Nat) (q : ℚ) : String :=
  toString
      ((2 * 10 ^ dec * q.num.toNat + q.den) / (2 * q.den) / 10 ^ dec) ++ "." ++
    padZeros dec ((2 * 10 ^ dec * q.num.toNat + q.den) / (2 * q.den) % 10 ^ dec)

/-- `printf("%.*f")`: sign, then the rounded magnitude. -/
def formatFixed (dec : Nat) (q : ℚ) : String :=
  if q < 0 then "-" ++ formatFixedNN dec (-q) else formatFixedNN dec q

/-- The header row `time,cpu0_load,...,cpu{N-1}_load`, as a field list. -/
def headerRow (n : Nat) : List String :=
  "time" :: (List.range n).map (fun i => "cpu" ++ toString i ++ "_load")

/-- The per-core loads of one data row: `0.0` on the first reading, else
`calculate_cpu_load` of the core's two snapshots. -/
def tickLoads (n : Nat) (fr : Bool) (m : Mem) : List ℚ :=
  (List.range n).map
    (fun i => if fr then 0 else calculate_cpu_load (m i).current (m i).previous)

/-- One data row: `%f` timestamp then the loads, each `printf`ed as `%.2f`. -/
def tickRow (n : Nat) (fr : Bool) (t : ℚ) (m : Mem) : List String :=
  formatFixed 6 t :: (tickLoads n fr m).map (formatFixed 2)

/-- The sampling loop: each tick re-parses the file content visible at that
moment, emits one row, then copies `current` into `previous` for every core.
The list of ticks is the sequence of iterations executed before `done` is
observed at the loop head. -/
def runTicks (n : Nat) : List (ℚ × List (List Char)) → Bool → Mem → List (List String)
  | [], _, _ => []
  | (t, content) :: rest, fr, m =>
    tickRow n fr t (parse_cpu_stats content m n).2 ::
      runTicks n rest false (copyPrev n (parse_cpu_stats content m n).2)

/-- The loads of a data row in the variant WITHOUT the `first_reading` flag:
`calculate_cpu_load` is evaluated on every tick including the first. -/
def tickLoadsNF (n : Nat) (m : Mem) : List ℚ :=
  (List.range n).map (fun i => calculate_cpu_load (m i).current (m i).previous)

/-- A data row of the no-flag variant. -/
def tickRowNF (n : Nat) (t : ℚ) (m : Mem) : List String :=
  formatFixed 6 t :: (tickLoadsNF n m).map (formatFixed 2)

/-- The sampling loop of the no-flag variant (state evolution identical). -/
def runTicksNF (n : Nat) : List (ℚ × List (List Char)) → Mem → List (List String)
  | [], _ => []
  | (t, content) :: rest, m =>
    tickRowNF n t (parse_cpu_stats content m n).2 ::
      runTicksNF n rest (copyPrev n (parse_cpu_stats content m n).2)

/-- Observable outcome of a run: the stdout rows (as field lists) and the
process exit status. -/
structure RunResult where
  rows : List (List String)
  code : Nat
deriving DecidableEq, Repr

/-- `main` after a successful `fopen`/`calloc`: count cores from the content
seen by `count_cpus` (exit 3 when zero), take the initial read, print the
header, seed `previous := current`, then run the sampling loop; exit 0 after
the loop. `countC` is the content at the `count_cpus` read, `initC` at the
initial `parse_cpu_stats`, and each tick carries its own (timestamp, content). -/
def cpu_load_main (countC initC : List (List Char))
    (ticks : List (ℚ × List (List Char))) : RunResult :=
  if count_cpus countC = 0 then ⟨[], 3⟩
  else
    ⟨headerRow (count_cpus countC) ::
        runTicks (count_cpus countC) ticks true
          (copyPrev (count_cpus countC)
            (parse_cpu_stats initC zeroMem (count_cpus countC)).2), 0⟩

/-- The no-flag variant of `cpu_load_main`. -/
def cpu_load_main_noflag (countC initC : List (List Char))
    (ticks : List (ℚ × List (List Char))) : RunResult :=
  if count_cpus countC = 0 then ⟨[], 3⟩
  else
    ⟨headerRow (count_cpus countC) ::
        runTicksNF (count_cpus countC) ticks
          (copyPrev (count_cpus countC)
            (parse_cpu_stats initC zeroMem (count_cpus countC)).2), 0⟩

/-- The five ways the process exits, per the `exit(...)` calls in `main`. -/
inductive ExitCause where
  | termSignal
  | helpRequested
  | openFailed
  | zeroCores
  | allocFailed
deriving DecidableEq, Repr, Fintype

/-- The exit status used for each outcome in the source. -/
def exit_code : ExitCause → Nat
  | .termSignal => 0
  | .helpRequested => 1
  | .openFailed => 2
  | .zeroCores => 3
  | .allocFailed => 4

/-- Program counter of the emission-loop machine.  Emission of one row is a
sequence of separate `printf` steps (timestamp, one chunk per core, newline),
so a row can be in flight when a signal arrives. -/
inductive LoopPC where
  | check
  | emit : List String → LoopPC
  | sleeping
  | freeing
  | closing
  | finished
deriving DecidableEq, Repr

/-- State of the emission-loop machine: program counter, iteration index,
the `done` flag set by the signal handler, the chunks written to stdout,
whether `free`/`fclose` have run, and the exit status if `exit` was reached. -/
structure LoopState where
  pc : LoopPC
  iter : Nat
  done : Bool
  out : List String
  freed : Bool
  closed : Bool
  exited : Option Nat
deriving DecidableEq, Repr

/-- Initial machine state at the top of the `while (!done)` loop. -/
def initLoopState : LoopState := ⟨.check, 0, false, [], false, false, none⟩

/-- Events: one machine step of the main thread, or asynchronous delivery of
the termination signal (which may interleave anywhere). -/
inductive LoopEvent where
  | tick
  | sigterm
deriving DecidableEq, Repr

/-- One step of the main thread.  `rows i` is the chunk sequence of iteration
`i`'s row.  The `done` flag is read only at the loop head (`check`); the body
emits the row chunk by chunk, sleeps, and returns to the loop head; once the
loop exits the thread frees the array, closes the file and exits with 0. -/
def loopStep (rows : Nat → List String) (s : LoopState) : LoopState :=
  match s.pc with
  | .check =>
    if s.done then { s with pc := .freeing } else { s with pc := .emit (rows s.iter) }
  | .emit [] => { s with pc := .sleeping }
  | .emit (c :: rest) => { s with out := s.out ++ [c], pc := .emit rest }
  | .sleeping => { s with pc := .check, iter := s.iter + 1 }
  | .freeing => { s with freed := true, pc := .closing }
  | .closing => { s with closed := true, exited := some 0, pc := .finished }
  | .finished => s

/-- Apply one event: a main-thread step, or the `term` signal handler, which
only sets the `done` flag. -/
def applyEvent (rows : Nat → List String) : LoopEvent → LoopState → LoopState
  | .tick, s => loopStep rows s
  | .sigterm, s => { s with done := true }

/-- Run the machine over a sequence of events. -/
def runLoop (rows : Nat → List String) (evts : List LoopEvent) : LoopState :=
  evts.foldl (fun s e => applyEvent rows e s) initLoopState

/-- Concatenation of the first `k` complete rows. -/
def flatRows (rows : Nat → List String) (k : Nat) : List String :=
  ((List.range k).map rows).flatten

/-- Invariant of the emission-loop machine: the chunks written so far are
complete rows plus the prefix of the row currently in flight, and the
cleanup flags match the program counter. -/
def LoopInv (rows : Nat → List String) (s : LoopState) : Prop :=
  match s.pc with
  | .check =>
    s.out = flatRows rows s.iter ∧ s.exited = none ∧ s.freed = false ∧ s.closed = false
  | .emit rest =>
    (∃ pre, rows s.iter = pre ++ rest ∧ s.out = flatRows rows s.iter ++ pre) ∧
      s.exited = none ∧ s.freed = false ∧ s.closed = false
  | .sleeping =>
    s.out = flatRows rows (s.iter + 1) ∧ s.exited = none ∧ s.freed = false ∧ s.closed = false
  | .freeing =>
    s.out = flatRows rows s.iter ∧ s.exited = none ∧ s.freed = false ∧ s.closed = false
  | .closing =>
    s.out = flatRows rows s.iter ∧ s.exited = none ∧ s.freed = true ∧ s.closed = false
  | .finished =>
    s.out = flatRows rows s.iter ∧ s.exited = some 0 ∧ s.freed = true ∧ s.closed = true

/-- Field view of a snapshot, indexed in the format order of the ten
`%llu` conversions; indices past 9 read as 0. -/
def getF (s : cpu_stats_t) : Nat → Nat
  | 0 => s.user
  | 1 => s.nice
  | 2 => s.system
  | 3 => s.idle
  | 4 => s.iowait
  | 5 => s.irq
  | 6 => s.softirq
  | 7 => s.steal
  | 8 => s.guest
  | 9 => s.guest_nice
  | _ => 0

/-- Apply a sequence of (possibly partial) stored-value lists in order. -/
def applyWrites : List (List Nat) → cpu_stats_t → cpu_stats_t
  | [], s => s
  | vs :: ws, s => applyWrites ws (setStats vs s)

/-- One field of `applyWrites`, as a fold over the stored-value lists. -/
def foldD (f : Nat) (ws : List (List Nat)) (a : Nat) : Nat :=
  ws.foldl (fun acc vs => vs.getD f acc) a

/-- The value lists that the parser loop stores into entry `i`, in order.
The count evolution depends only on the lines, so this is a pure function of
the content. -/
def entryWrites (n : Nat) : List (List Char) → Nat → Nat → List (List Nat)
  | [], _, _ => []
  | l :: ls, c, i =>
    if c < n then
      (if c = i then [(scanStatVals l).2] else []) ++
        entryWrites n ls (if (scanStatVals l).1 = 11 then c + 1 else c) i
    else []

/-- Componentwise comparison of two snapshots (monotone counters). -/
def statsLe (p c : cpu_stats_t) : Prop :=
  p.user ≤ c.user ∧ p.nice ≤ c.nice ∧ p.system ≤ c.system ∧ p.idle ≤ c.idle ∧
    p.iowait ≤ c.iowait ∧ p.irq ≤ c.irq ∧ p.softirq ≤ c.softirq ∧
    p.steal ≤ c.steal ∧ p.guest ≤ c.guest ∧ p.guest_nice ≤ c.guest_nice

instance (p c : cpu_stats_t) : Decidable (statsLe p c) := by
  unfold statsLe; infer_instance

/-- The specification's `total = sum of all ten counters` (exact). -/
def spec_total (s : cpu_stats_t) : Nat :=
  s.user + s.nice + s.system + s.idle + s.iowait + s.irq + s.softirq +
    s.steal + s.guest + s.guest_nice

/-- The specification's `idle = idle_counter + iowait_counter` (exact). -/
def spec_idle (s : cpu_stats_t) : Nat :=
  s.idle + s.iowait

/-- The specification's load formula `100 * (1 - idle_delta / total_delta)`
with exact mathematical deltas, stated from the spec's words for comparison
against `calculate_cpu_load`. -/
def spec_load (current previous : cpu_stats_t) : ℚ :=
  100 * (1 - ((spec_idle current : ℚ) - (spec_idle previous : ℚ)) /
    ((spec_total current : ℚ) - (spec_total previous : ℚ)))

/-- An aggregate line in standard `/proc/stat` shape: tag `cpu`, whitespace,
then the ten counters. -/
def aggLine : List Char := "cpu 1 2 3 4 5 6 7 8 9 10".toList

/-- A per-core line for core 0. -/
def core0Line : List Char := "cpu0 10 0 0 90 0 0 0 0 0 0".toList

/-- A per-core line for core 1. -/
def core1Line : List Char := "cpu1 20 0 0 80 0 0 0 0 0 0".toList

/-- A single-core counter file whose core counters are all zero. -/
def cexInitLines : List (List Char) := ["cpu0 0 0 0 0 0 0 0 0 0 0".toList]

/-- The same file one tick later: 50 user ticks and 50 idle ticks elapsed. -/
def cexTickLines : List (List Char) := ["cpu0 50 0 0 50 0 0 0 0 0 0".toList]

/-- A file whose only line matches `cpu%d` but fails the full 11-conversion
format after storing one value (`user = 5`). -/
def demoLines : List (List Char) := ["cpu0 5".toList]

/-- A memory whose every entry holds the same nonzero snapshot in both
generations. -/
def demoMem : Mem :=
  fun _ => ⟨⟨7, 0, 0, 0, 0, 0, 0, 0, 0, 0⟩, ⟨7, 0, 0, 0, 0, 0, 0, 0, 0, 0⟩⟩

/-- Current snapshot with `total - previous total = 100` and
`idle - previous idle = 20`. -/
def cur80 : cpu_stats_t := ⟨80, 0, 0, 20, 0, 0, 0, 0, 0, 0⟩

/-- Previous snapshot for the 80% example. -/
def prev80 : cpu_stats_t := zeroStats

/-- A one-chunk row for exercising the emission-loop machine. -/
def demoRows : Nat → List String := fun _ => ["row"]

/-- An event schedule in which the termination signal arrives while the
first iteration's row is in flight. -/
def demoEvents : List LoopEvent :=
  [.tick, .sigterm, .tick, .tick, .tick, .tick, .tick, .tick]

section RatReduction

attribute [local semireducible] Rat.mul Rat.add Rat.sub Rat.inv

/-- Two snapshots agreeing on every field index are equal. -/
theorem stats_ext {s t : cpu_stats_t} (h : ∀ f, getF s f = getF t f) : s = t := by
  obtain ⟨a0, a1, a2, a3, a4, a5, a6, a7, a8, a9⟩ := s
  obtain ⟨b0, b1, b2, b3, b4, b5, b6, b7, b8, b9⟩ := t
  have e0 : a0 = b0 := h 0
  have e1 : a1 = b1 := h 1
  have e2 : a2 = b2 := h 2
  have e3 : a3 = b3 := h 3
  have e4 : a4 = b4 := h 4
  have e5 : a5 = b5 := h 5
  have e6 : a6 = b6 := h 6
  have e7 : a7 = b7 := h 7
  have e8 : a8 = b8 := h 8
  have e9 : a9 = b9 := h 9
  subst e0 e1 e2 e3 e4 e5 e6 e7 e8 e9
  rfl

/-- `List.getD` below the length ignores the default. -/
theorem getD_lt (vs : List Nat) (f : Nat) (h : f < vs.length) (x y : Nat) :
    vs.getD f x = vs.getD f y := by
  induction vs generalizing f with
  | nil => simp at h
  | cons v vs ih =>
    cases f with
    | zero => rfl
    | succ f => exact ih f (Nat.lt_of_succ_lt_succ h)

/-- `List.getD` at or past the length is the default. -/
theorem getD_ge (vs : List Nat) (f : Nat) (h : vs.length ≤ f) (x : Nat) :
    vs.getD f x = x := by
  induction vs generalizing f with
  | nil => rfl
  | cons v vs ih =>
    cases f with
    | zero => simp at h
    | succ f => exact ih f (Nat.le_of_succ_le_succ h)

/-- Field indices past 9 always read 0. -/
theorem getF_ge (s : cpu_stats_t) (f : Nat) (h : 10 ≤ f) : getF s f = 0 := by
  obtain ⟨k, rfl⟩ : ∃ k, f = k + 10 := ⟨f - 10, by omega⟩
  rfl

/-- `setStats` is a prefix write: field `f` becomes `vs[f]` when present,
else keeps its value. -/
theorem getF_setStats (vs : List Nat) (s : cpu_stats_t) (f : Nat) (hf : f < 10) :
    getF (setStats vs s) f = vs.getD f (getF s f) := by
  rcases vs with _ | ⟨a, _ | ⟨b, _ | ⟨c, _ | ⟨d, _ | ⟨e, _ | ⟨g, _ | ⟨h1, _ |
    ⟨h2, _ | ⟨h3, _ | ⟨h4, rest⟩⟩⟩⟩⟩⟩⟩⟩⟩⟩ <;> interval_cases f <;> rfl

theorem foldD_cons (f : Nat) (vs : List Nat) (ws : List (List Nat)) (a : Nat) :
    foldD f (vs :: ws) a = foldD f ws (vs.getD f a) := rfl

/-- Replaying the same fold of prefix writes is absorbed: each step is a
constant function (index below the write's length) or the identity. -/
theorem foldD_idem (f : Nat) (ws : List (List Nat)) (a : Nat) :
    foldD f ws (foldD f ws a) = foldD f ws a := by
  induction ws generalizing a with
  | nil => rfl
  | cons vs ws ih =>
    rw [foldD_cons f vs ws a, foldD_cons f vs ws (foldD f ws (vs.getD f a))]
    by_cases h : f < vs.length
    · rw [getD_lt vs f h (foldD f ws (vs.getD f a)) a]
    · rw [getD_ge vs f (Nat.le_of_not_lt h), getD_ge vs f (Nat.le_of_not_lt h)]
      exact ih a

/-- One field of `applyWrites` is the fold of the stored prefixes. -/
theorem getF_applyWrites (ws : List (List Nat)) (s : cpu_stats_t) (f : Nat)
    (hf : f < 10) : getF (applyWrites ws s) f = foldD f ws (getF s f) := by
  induction ws generalizing s with
  | nil => rfl
  | cons vs ws ih =>
    rw [show applyWrites (vs :: ws) s = applyWrites ws (setStats vs s) from rfl,
      ih (setStats vs s), getF_setStats vs s f hf, foldD_cons]

/-- Replaying the same write sequence from its own result changes nothing. -/
theorem applyWrites_idem (ws : List (List Nat)) (s : cpu_stats_t) :
    applyWrites ws (applyWrites ws s) = applyWrites ws s := by
  apply stats_ext
  intro f
  by_cases hf : f < 10
  · rw [getF_applyWrites ws _ f hf, getF_applyWrites ws s f hf, foldD_idem]
  · rw [getF_ge _ f (Nat.le_of_not_lt hf), getF_ge _ f (Nat.le_of_not_lt hf)]

/-- Characterization of the parser loop: `previous` snapshots are never
touched, and each entry's `current` is the ordered application of exactly
the value lists `entryWrites` attributes to it. -/
theorem parseGo_spec (n : Nat) (lines : List (List Char)) :
    ∀ c m i, ((parseGo n lines c m).2 i).previous = (m i).previous ∧
      ((parseGo n lines c m).2 i).current =
        applyWrites (entryWrites n lines c i) ((m i).current) := by
  induction lines with
  | nil => intro c m i; exact ⟨rfl, rfl⟩
  | cons l ls ih =>
    intro c m i
    by_cases h : c < n
    · have hstep : parseGo n (l :: ls) c m =
          parseGo n ls (if (scanStatVals l).1 = 11 then c + 1 else c)
            (memUpd m c ⟨setStats (scanStatVals l).2 ((m c).current), (m c).previous⟩) := by
        simp [parseGo, h]
      have hw : entryWrites n (l :: ls) c i =
          (if c = i then [(scanStatVals l).2] else []) ++
            entryWrites n ls (if (scanStatVals l).1 = 11 then c + 1 else c) i := by
        simp [entryWrites, h]
      have hih := ih (if (scanStatVals l).1 = 11 then c + 1 else c)
        (memUpd m c ⟨setStats (scanStatVals l).2 ((m c).current), (m c).previous⟩) i
      rw [hstep, hw]
      by_cases hc : c = i
      · subst hc
        have hm : memUpd m c ⟨setStats (scanStatVals l).2 ((m c).current), (m c).previous⟩ c =
            ⟨setStats (scanStatVals l).2 ((m c).current), (m c).previous⟩ := by
          simp [memUpd]
        rw [hm] at hih
        refine ⟨hih.1, ?_⟩
        rw [hih.2, if_pos rfl]
        rfl
      · have hic : ¬ i = c := fun h' => hc h'.symm
        have hm : memUpd m c ⟨setStats (scanStatVals l).2 ((m c).current), (m c).previous⟩ i =
            m i := by
          simp [memUpd, hic]
        rw [hm] at hih
        refine ⟨hih.1, ?_⟩
        rw [hih.2, if_neg hc]
        rfl
    · have hstep : parseGo n (l :: ls) c m = (c, m) := by simp [parseGo, h]
      have hw : entryWrites n (l :: ls) c i = [] := by simp [entryWrites, h]
      rw [hstep, hw]
      exact ⟨rfl, rfl⟩

/-- The running count never decreases. -/
theorem parseGo_count_ge (n : Nat) (lines : List (List Char)) :
    ∀ c m, c ≤ (parseGo n lines c m).1 := by
  induction lines with
  | nil => intro c m; exact Nat.le_refl c
  | cons l ls ih =>
    intro c m
    by_cases h : c < n
    · have hstep : parseGo n (l :: ls) c m =
          parseGo n ls (if (scanStatVals l).1 = 11 then c + 1 else c)
            (memUpd m c ⟨setStats (scanStatVals l).2 ((m c).current), (m c).previous⟩) := by
        simp [parseGo, h]
      rw [hstep]
      refine Nat.le_trans ?_ (ih _ _)
      split <;> omega
    · simp [parseGo, h]

/-- The count stays within `num_cpus`. -/
theorem parseGo_count_le (n : Nat) (lines : List (List Char)) :
    ∀ c m, c ≤ n → (parseGo n lines c m).1 ≤ n := by
  induction lines with
  | nil => intro c m hc; exact hc
  | cons l ls ih =>
    intro c m hc
    by_cases h : c < n
    · have hstep : parseGo n (l :: ls) c m =
          parseGo n ls (if (scanStatVals l).1 = 11 then c + 1 else c)
            (memUpd m c ⟨setStats (scanStatVals l).2 ((m c).current), (m c).previous⟩) := by
        simp [parseGo, h]
      rw [hstep]
      refine ih _ _ ?_
      split <;> omega
    · have hstep : parseGo n (l :: ls) c m = (c, m) := by simp [parseGo, h]
      rw [hstep]
      exact hc

/-- Entries at or past `num_cpus` are never written. -/
theorem parseGo_frame_ge (n : Nat) (lines : List (List Char)) :
    ∀ c m i, n ≤ i → (parseGo n lines c m).2 i = m i := by
  induction lines with
  | nil => intro c m i _; rfl
  | cons l ls ih =>
    intro c m i hi
    by_cases h : c < n
    · have hstep : parseGo n (l :: ls) c m =
          parseGo n ls (if (scanStatVals l).1 = 11 then c + 1 else c)
            (memUpd m c ⟨setStats (scanStatVals l).2 ((m c).current), (m c).previous⟩) := by
        simp [parseGo, h]
      rw [hstep, ih _ _ i hi]
      have : i ≠ c := by omega
      simp [memUpd, this]
    · simp [parseGo, h]

/-- Entries strictly past the returned count are never written. -/
theorem parseGo_frame_gt (n : Nat) (lines : List (List Char)) :
    ∀ c m i, (parseGo n lines c m).1 < i → (parseGo n lines c m).2 i = m i := by
  induction lines with
  | nil => intro c m i _; rfl
  | cons l ls ih =>
    intro c m i hi
    by_cases h : c < n
    · have hstep : parseGo n (l :: ls) c m =
          parseGo n ls (if (scanStatVals l).1 = 11 then c + 1 else c)
            (memUpd m c ⟨setStats (scanStatVals l).2 ((m c).current), (m c).previous⟩) := by
        simp [parseGo, h]
      rw [hstep] at hi ⊢
      have hge := parseGo_count_ge n ls (if (scanStatVals l).1 = 11 then c + 1 else c)
        (memUpd m c ⟨setStats (scanStatVals l).2 ((m c).current), (m c).previous⟩)
      have hcc : c ≤ (if (scanStatVals l).1 = 11 then c + 1 else c) := by split <;> omega
      have hic : ¬ i = c := by omega
      rw [ih _ _ i hi]
      simp [memUpd, hic]
    · have hstep : parseGo n (l :: ls) c m = (c, m) := by simp [parseGo, h]
      rw [hstep]

/-- `previous` is untouched by `parse_cpu_stats`. -/
theorem parse_previous (lines : List (List Char)) (m : Mem) (n i : Nat) :
    ((parse_cpu_stats lines m n).2 i).previous = (m i).previous :=
  (parseGo_spec n lines 0 m i).1

/-- `current` after `parse_cpu_stats`, via the write characterization. -/
theorem parse_current (lines : List (List Char)) (m : Mem) (n i : Nat) :
    ((parse_cpu_stats lines m n).2 i).current =
      applyWrites (entryWrites n lines 0 i) ((m i).current) :=
  (parseGo_spec n lines 0 m i).2

/-- Re-parsing the same content right after an end-of-tick
`previous := current` copy leaves every in-range core with
`current = previous`. -/
theorem parse_twice_current (content : List (List Char)) (n : Nat) (m : Mem)
    (i : Nat) (hi : i < n) :
    ((parse_cpu_stats content (copyPrev n (parse_cpu_stats content m n).2) n).2 i).current =
      ((parse_cpu_stats content (copyPrev n (parse_cpu_stats content m n).2) n).2 i).previous := by
  have hcur := parse_current content (copyPrev n (parse_cpu_stats content m n).2) n i
  have hprev := parse_previous content (copyPrev n (parse_cpu_stats content m n).2) n i
  have hA := parse_current content m n i
  have hc : (copyPrev n (parse_cpu_stats content m n).2 i).current =
      ((parse_cpu_stats content m n).2 i).current := by
    simp [copyPrev, hi]
  have hp : (copyPrev n (parse_cpu_stats content m n).2 i).previous =
      ((parse_cpu_stats content m n).2 i).current := by
    simp [copyPrev, hi]
  rw [hcur, hprev, hc, hp, hA, applyWrites_idem, ← hA]

/-- Unsigned subtraction of a value from itself is zero. -/
theorem usub_self (a : Nat) : usub a a = 0 := by
  have h : a % ullMod + ullMod - a % ullMod = ullMod := by omega
  rw [usub, h, Nat.mod_self]

/-- The zero-division guard fires whenever the total delta is zero. -/
theorem calculate_zero_of_diff_zero (current previous : cpu_stats_t)
    (h : usub (get_total_time current) (get_total_time previous) = 0) :
    calculate_cpu_load current previous = 0 := by
  rw [calculate_cpu_load, if_pos h]

/-- A core whose two snapshots coincide reports load zero. -/
theorem calculate_self (s : cpu_stats_t) : calculate_cpu_load s s = 0 :=
  calculate_zero_of_diff_zero s s (usub_self (get_total_time s))

/-- Mapping a constant function is replication. -/
theorem map_const_eq_replicate {α β : Type} (l : List α) (b : β) :
    l.map (fun _ => b) = List.replicate l.length b := by
  induction l with
  | nil => rfl
  | cons a l ih => simp [ih, List.replicate_succ]

/-- On the first reading every load in the row is literally zero. -/
theorem tickLoads_first (n : Nat) (m : Mem) : tickLoads n true m = List.replicate n 0 := by
  unfold tickLoads
  rw [show (fun i => if true then (0 : ℚ) else
        calculate_cpu_load (m i).current (m i).previous) = fun _ => (0 : ℚ) from rfl,
    map_const_eq_replicate, List.length_range]

/-- With the flag lowered, a row of the reference program is a row of the
no-flag variant. -/
theorem tickRow_false (n : Nat) (t : ℚ) (m : Mem) :
    tickRow n false t m = tickRowNF n t m := rfl

/-- After the first iteration both variants run identically. -/
theorem runTicks_false_eq (n : Nat) (ts : List (ℚ × List (List Char))) :
    ∀ m, runTicks n ts false m = runTicksNF n ts m := by
  induction ts with
  | nil => intro m; rfl
  | cons tc rest ih =>
    intro m
    obtain ⟨t, content⟩ := tc
    show tickRow n false t _ :: runTicks n rest false _ = tickRowNF n t _ :: runTicksNF n rest _
    rw [tickRow_false, ih]

/-- `printf("%.2f", 0.0)` prints `0.00`. -/
theorem formatFixed_two_zero : formatFixed 2 0 = "0.00" := by decide

/-- `String.append` concatenates the character lists. -/
theorem str_data_append (s t : String) : (s ++ t).data = s.data ++ t.data := by
  cases s; cases t; rfl

/-- A fixed-point numeral contains a dot, so it is never the literal `time`. -/
theorem formatFixedNN_ne_time (dec : Nat) (q : ℚ) : formatFixedNN dec q ≠ "time" := by
  intro h
  have hd := congrArg String.data h
  rw [formatFixedNN, str_data_append, str_data_append] at hd
  have hmem : '.' ∈ ("time" : String).data := by
    rw [← hd]
    rw [show ("." : String).data = ['.'] from rfl]
    simp
  exact absurd hmem (by decide)

/-- `printf("%f", t)` output is never the header field `time`. -/
theorem formatFixed_ne_time (dec : Nat) (q : ℚ) : formatFixed dec q ≠ "time" := by
  unfold formatFixed
  split
  · intro h
    have hd := congrArg String.data h
    rw [str_data_append, show ("-" : String).data = ['-'] from rfl,
      show ("time" : String).data = ['t', 'i', 'm', 'e'] from rfl] at hd
    injection hd with h1 h2
    exact absurd h1 (by decide)
  · exact formatFixedNN_ne_time dec q

/-- Every row the sampling loop emits is a formatted timestamp followed by
exactly `n` two-decimal loads. -/
theorem runTicks_shape (n : Nat) (ts : List (ℚ × List (List Char))) :
    ∀ fr m row, row ∈ runTicks n ts fr m →
      ∃ t loads, List.length loads = n ∧
        row = formatFixed 6 t :: loads.map (formatFixed 2) := by
  induction ts with
  | nil => intro fr m row h; simp [runTicks] at h
  | cons tc rest ih =>
    intro fr m row h
    obtain ⟨t, content⟩ := tc
    rcases List.mem_cons.mp h with h1 | h2
    · refine ⟨t, tickLoads n fr (parse_cpu_stats content m n).2, ?_, h1⟩
      simp [tickLoads]
    · exact ih false _ row h2

/-- Concatenating one more complete row. -/
theorem flatRows_succ (rows : Nat → List String) (k : Nat) :
    flatRows rows (k + 1) = flatRows rows k ++ rows k := by
  unfold flatRows
  rw [List.range_succ, List.map_append, List.flatten_append]
  simp

/-- Every event preserves the loop invariant: a signal only sets the flag,
and each main-thread step moves between compatible configurations. -/
theorem LoopInv_step (rows : Nat → List String) (e : LoopEvent) (s : LoopState)
    (h : LoopInv rows s) : LoopInv rows (applyEvent rows e s) := by
  obtain ⟨pc, iter, done, out, freed, closed, exited⟩ := s
  cases e with
  | sigterm => exact h
  | tick =>
    cases pc with
    | check =>
      obtain ⟨h1, h2, h3, h4⟩ := h
      cases done with
      | true => exact ⟨h1, h2, h3, h4⟩
      | false =>
        refine ⟨⟨[], (List.nil_append _).symm, ?_⟩, h2, h3, h4⟩
        show out = flatRows rows iter ++ []
        rw [List.append_nil]
        exact h1
    | emit rest =>
      obtain ⟨⟨pre, hpre, hout⟩, h2, h3, h4⟩ := h
      cases rest with
      | nil =>
        refine ⟨?_, h2, h3, h4⟩
        show out = flatRows rows (iter + 1)
        have hpre1 : rows iter = pre := by
          have h5 : rows iter = pre ++ [] := hpre
          rwa [List.append_nil] at h5
        have hout1 : out = flatRows rows iter ++ pre := hout
        rw [flatRows_succ, hout1, hpre1]
      | cons chunk rest =>
        refine ⟨⟨pre ++ [chunk], ?_, ?_⟩, h2, h3, h4⟩
        · show rows iter = (pre ++ [chunk]) ++ rest
          have hpre1 : rows iter = pre ++ chunk :: rest := hpre
          rw [hpre1]
          simp
        · show out ++ [chunk] = flatRows rows iter ++ (pre ++ [chunk])
          have hout1 : out = flatRows rows iter ++ pre := hout
          rw [hout1]
          simp
    | sleeping => exact h
    | freeing =>
      obtain ⟨h1, h2, h3, h4⟩ := h
      exact ⟨h1, h2, rfl, h4⟩
    | closing =>
      obtain ⟨h1, h2, h3, h4⟩ := h
      exact ⟨h1, rfl, h3, rfl⟩
    | finished => exact h

/-- The invariant holds after any event sequence. -/
theorem LoopInv_run (rows : Nat → List String) (evts : List LoopEvent) :
    LoopInv rows (runLoop rows evts) := by
  suffices h : ∀ s, LoopInv rows s →
      LoopInv rows (evts.foldl (fun s e => applyEvent rows e s) s) by
    exact h initLoopState ⟨rfl, rfl, rfl, rfl⟩
  induction evts with
  | nil => intro s hs; exact hs
  | cons e evts ih => intro s hs; exact ih _ (LoopInv_step rows e s hs)

/-- The no-flag loads are the flag-lowered loads. -/
theorem tickLoadsNF_eq (n : Nat) (m : Mem) : tickLoadsNF n m = tickLoads n false m := rfl

/-- When every in-range core has equal snapshots, the whole load row is
zero (on either value of the first-reading flag). -/
theorem tickLoads_zero_of_eq (n : Nat) (fr : Bool) (m : Mem)
    (h : ∀ i, i < n → (m i).current = (m i).previous) :
    tickLoads n fr m = List.replicate n 0 := by
  unfold tickLoads
  have hpt : ∀ i ∈ List.range n,
      (if fr then (0 : ℚ) else calculate_cpu_load (m i).current (m i).previous) =
        (fun _ => (0 : ℚ)) i := by
    intro i hi
    cases fr with
    | true => rfl
    | false =>
      show calculate_cpu_load (m i).current (m i).previous = 0
      rw [h i (List.mem_range.mp hi)]
      exact calculate_self _
  rw [List.map_congr_left hpt, map_const_eq_replicate, List.length_range]

/-- Unsigned subtraction agrees with exact subtraction below the modulus. -/
theorem usub_eq_sub (a b : Nat) (hb : b ≤ a) (ha : a < ullMod) : usub a b = a - b := by
  rw [usub, Nat.mod_eq_of_lt ha, Nat.mod_eq_of_lt (Nat.lt_of_le_of_lt hb ha)]
  have h1 : a + ullMod - b = (a - b) + ullMod := by omega
  rw [h1, Nat.add_mod_right]
  exact Nat.mod_eq_of_lt (by omega)

/-- `parse_cpu_stats` leaves entries beyond the returned count unchanged. -/
theorem parse_count_gt (lines : List (List Char)) (m : Mem) (n i : Nat)
    (hi : (parse_cpu_stats lines m n).1 < i) :
    (parse_cpu_stats lines m n).2 i = m i :=
  parseGo_frame_gt n lines 0 m i hi

/-- C1: on a counter file made of the aggregate line `cpu 1 2 3...` plus
per-core lines `cpu0 ...` and `cpu1 ...`, topology discovery returns 3, not
2: the `%d` conversion of `sscanf("cpu%d")` skips the whitespace after the
aggregate tag and parses the first counter, so the aggregate line is
counted as a core. -/
theorem count_cpus_counts_aggregate :
    count_cpus [aggLine, core0Line, core1Line] = 3 ∧
      count_cpus [aggLine, core0Line, core1Line] ≠ 2 := by
  decide

/-- C2 (amended): when the counter content read on the first loop iteration
equals the content read at initialization, every first-iteration delta is
zero and the program emits exactly the output of the variant without the
first-reading flag; the unrestricted claim fails because the file is
re-read inside the loop after the seeding copy (see
`first_tick_outputs_differ`). -/
theorem first_tick_flag_equiv_of_unchanged (countC initC : List (List Char))
    (t : ℚ) (ts : List (ℚ × List (List Char))) :
    cpu_load_main countC initC ((t, initC) :: ts) =
      cpu_load_main_noflag countC initC ((t, initC) :: ts) := by
  by_cases h : count_cpus countC = 0
  · rw [cpu_load_main, cpu_load_main_noflag, if_pos h, if_pos h]
  · rw [cpu_load_main, cpu_load_main_noflag, if_neg h, if_neg h]
    have hm : ∀ i, i < count_cpus countC →
        (((parse_cpu_stats initC (copyPrev (count_cpus countC)
              (parse_cpu_stats initC zeroMem (count_cpus countC)).2)
              (count_cpus countC)).2 i).current) =
          (((parse_cpu_stats initC (copyPrev (count_cpus countC)
              (parse_cpu_stats initC zeroMem (count_cpus countC)).2)
              (count_cpus countC)).2 i).previous) :=
      fun i hi => parse_twice_current initC (count_cpus countC) zeroMem i hi
    show RunResult.mk (headerRow _ :: runTicks _ ((t, initC) :: ts) true _) 0 =
      RunResult.mk (headerRow _ :: runTicksNF _ ((t, initC) :: ts) _) 0
    congr 1
    show headerRow _ :: (tickRow _ true t _ :: runTicks _ ts false _) =
      headerRow _ :: (tickRowNF _ t _ :: runTicksNF _ ts _)
    rw [runTicks_false_eq]
    congr 2
    rw [tickRow, tickRowNF, tickLoads_first, tickLoadsNF_eq,
      tickLoads_zero_of_eq _ false _ hm]

/-- C2 counterexample: with counters advancing between the initialization
read and the first loop read, the first loop iteration's total delta for
core 0 is nonzero, and the reference program and the no-flag variant print
different outputs on the same input. -/
theorem first_tick_outputs_differ :
    usub (get_total_time (((parse_cpu_stats cexTickLines
            (copyPrev 1 (parse_cpu_stats cexInitLines zeroMem 1).2) 1).2 0).current))
        (get_total_time (((parse_cpu_stats cexTickLines
            (copyPrev 1 (parse_cpu_stats cexInitLines zeroMem 1).2) 1).2 0).previous)) ≠ 0 ∧
      cpu_load_main cexInitLines cexInitLines [(0, cexTickLines)] ≠
        cpu_load_main_noflag cexInitLines cexInitLines [(0, cexTickLines)] := by
  decide

/-- C3: whenever at least one core was discovered, the first emitted data
row reports load `0.00` for every core, for all counter contents. -/
theorem first_row_loads_zero (countC initC : List (List Char)) (t : ℚ)
    (content : List (List Char)) (ts : List (ℚ × List (List Char)))
    (h : count_cpus countC ≠ 0) :
    ((cpu_load_main countC initC ((t, content) :: ts)).rows).tail.head? =
      some (formatFixed 6 t :: List.replicate (count_cpus countC) "0.00") := by
  rw [cpu_load_main, if_neg h]
  show (tickRow _ true t _ :: runTicks _ ts false _).head? = _
  rw [List.head?_cons, tickRow, tickLoads_first, List.map_replicate,
    formatFixed_two_zero]

/-- C3 witness at a concrete single-core input. -/
theorem first_row_loads_zero_witness :
    count_cpus cexInitLines ≠ 0 ∧
      ((cpu_load_main cexInitLines cexInitLines [(0, cexTickLines)]).rows).tail.head? =
        some (formatFixed 6 0 :: List.replicate (count_cpus cexInitLines) "0.00") :=
  ⟨by decide, first_row_loads_zero cexInitLines cexInitLines 0 cexTickLines [] (by decide)⟩

/-- C4: a zero total delta short-circuits `calculate_cpu_load` to exactly
`0`, the fallthrough divisor is nonzero whenever the division is reached,
and a second sample taken with unchanged counter content reports `0.00`
for every core. -/
theorem zero_total_delta_reports_zero :
    (∀ current previous : cpu_stats_t,
        usub (get_total_time current) (get_total_time previous) = 0 →
          calculate_cpu_load current previous = 0) ∧
      (∀ current previous : cpu_stats_t,
          usub (get_total_time current) (get_total_time previous) ≠ 0 →
            (usub (get_total_time current) (get_total_time previous) : ℚ) ≠ 0) ∧
      ∀ countC initC : List (List Char), ∀ t1 t2 : ℚ,
        ∀ content : List (List Char), ∀ ts : List (ℚ × List (List Char)),
          count_cpus countC ≠ 0 →
            ((cpu_load_main countC initC
                ((t1, content) :: (t2, content) :: ts)).rows).tail.tail.head? =
              some (formatFixed 6 t2 :: List.replicate (count_cpus countC) "0.00") := by
  refine ⟨fun cur prev h => calculate_zero_of_diff_zero cur prev h, ?_, ?_⟩
  · intro cur prev h
    exact_mod_cast Nat.cast_ne_zero.mpr h
  · intro countC initC t1 t2 content ts h
    rw [cpu_load_main, if_neg h]
    show (tickRow _ false t2 _ :: runTicks _ ts false _).head? = _
    have hm : ∀ i, i < count_cpus countC →
        (((parse_cpu_stats content (copyPrev (count_cpus countC)
              (parse_cpu_stats content
                (copyPrev (count_cpus countC)
                  (parse_cpu_stats initC zeroMem (count_cpus countC)).2)
                (count_cpus countC)).2)
              (count_cpus countC)).2 i).current) =
          (((parse_cpu_stats content (copyPrev (count_cpus countC)
              (parse_cpu_stats content
                (copyPrev (count_cpus countC)
                  (parse_cpu_stats initC zeroMem (count_cpus countC)).2)
                (count_cpus countC)).2)
              (count_cpus countC)).2 i).previous) :=
      fun i hi => parse_twice_current content (count_cpus countC)
        (copyPrev (count_cpus countC)
          (parse_cpu_stats initC zeroMem (count_cpus countC)).2) i hi
    rw [List.head?_cons, tickRow, tickLoads_zero_of_eq _ false _ hm,
      List.map_replicate, formatFixed_two_zero]

/-- C4 witness: the guard at equal snapshots and two equal-content samples. -/
theorem zero_total_delta_reports_zero_witness :
    calculate_cpu_load zeroStats zeroStats = 0 ∧
      ((cpu_load_main cexInitLines cexInitLines
          [(0, cexTickLines), (1, cexTickLines)]).rows).tail.tail.head? =
        some (formatFixed 6 1 :: List.replicate (count_cpus cexInitLines) "0.00") :=
  ⟨zero_total_delta_reports_zero.1 zeroStats zeroStats (by decide),
    zero_total_delta_reports_zero.2.2 cexInitLines cexInitLines 0 1 cexTickLines []
      (by decide)⟩

/-- C5: with monotone counters fitting in 64 bits and a nonzero total
delta, `calculate_cpu_load` equals the specification formula
`100 * (1 - idle_delta / total_delta)` exactly; at total delta 100 and
idle delta 20 the two-decimal output is `80.00`. -/
theorem load_matches_spec_formula :
    (∀ current previous : cpu_stats_t, statsLe previous current →
        spec_total current < 2 ^ 64 →
        spec_total previous ≠ spec_total current →
        calculate_cpu_load current previous = spec_load current previous) ∧
      formatFixed 2 (calculate_cpu_load cur80 prev80) = "80.00" := by
  constructor
  · intro cur prev hle hlt hne
    obtain ⟨l0, l1, l2, l3, l4, l5, l6, l7, l8, l9⟩ := hle
    have htp : spec_total prev ≤ spec_total cur := by unfold spec_total; omega
    have hip : spec_idle prev ≤ spec_idle cur := by unfold spec_idle; omega
    have hlt1 : spec_total cur < ullMod := hlt
    have hilt : spec_idle cur < ullMod := by
      have : spec_idle cur ≤ spec_total cur := by unfold spec_idle spec_total; omega
      omega
    have e1 : get_total_time cur = spec_total cur := Nat.mod_eq_of_lt hlt1
    have e2 : get_total_time prev = spec_total prev :=
      Nat.mod_eq_of_lt (Nat.lt_of_le_of_lt htp hlt1)
    have e3 : get_idle_time cur = spec_idle cur := Nat.mod_eq_of_lt hilt
    have e4 : get_idle_time prev = spec_idle prev :=
      Nat.mod_eq_of_lt (Nat.lt_of_le_of_lt hip hilt)
    have d1 : usub (get_total_time cur) (get_total_time prev) =
        spec_total cur - spec_total prev := by
      rw [e1, e2]
      exact usub_eq_sub _ _ htp hlt1
    have d2 : usub (get_idle_time cur) (get_idle_time prev) =
        spec_idle cur - spec_idle prev := by
      rw [e3, e4]
      exact usub_eq_sub _ _ hip hilt
    have hdne : spec_total cur - spec_total prev ≠ 0 := by omega
    rw [calculate_cpu_load, d1, d2, if_neg hdne, spec_load,
      Nat.cast_sub htp, Nat.cast_sub hip]
  · decide

/-- C5 witness at the 80% example pair. -/
theorem load_matches_spec_formula_witness :
    statsLe prev80 cur80 ∧ spec_total cur80 < 2 ^ 64 ∧
      spec_total prev80 ≠ spec_total cur80 ∧
      calculate_cpu_load cur80 prev80 = spec_load cur80 prev80 :=
  ⟨by decide, by decide, by decide,
    load_matches_spec_formula.1 cur80 prev80 (by decide) (by decide) (by decide)⟩

/-- C6: the output of a successful run is the header row followed by data
rows; the header has `1 + N` fields and occurs exactly once (no data row
equals it, since data rows start with a dotted numeral, not `time`), and
every data row is a timestamp field followed by exactly `N` loads in
core-index order, each formatted to two decimals. -/
theorem csv_row_shape (countC initC : List (List Char))
    (ts : List (ℚ × List (List Char))) (h : count_cpus countC ≠ 0) :
    ∃ dataRows, (cpu_load_main countC initC ts).rows =
        headerRow (count_cpus countC) :: dataRows ∧
      (headerRow (count_cpus countC)).length = 1 + count_cpus countC ∧
      headerRow (count_cpus countC) ∉ dataRows ∧
      ∀ row ∈ dataRows, row.length = 1 + count_cpus countC ∧
        ∃ t loads, List.length loads = count_cpus countC ∧
          row = formatFixed 6 t :: loads.map (formatFixed 2) := by
  rw [cpu_load_main, if_neg h]
  refine ⟨_, rfl, ?_, ?_, ?_⟩
  · rw [headerRow]
    simp [Nat.add_comm]
  · intro hmem
    obtain ⟨t, loads, hlen, hrow⟩ := runTicks_shape _ _ _ _ _ hmem
    rw [headerRow] at hrow
    have hh : "time" = formatFixed 6 t := (List.cons.injEq _ _ _ _).mp hrow |>.1
    exact formatFixed_ne_time 6 t hh.symm
  · intro row hmem
    obtain ⟨t, loads, hlen, hrow⟩ := runTicks_shape _ _ _ _ _ hmem
    constructor
    · rw [hrow]
      simp [hlen, Nat.add_comm]
    · exact ⟨t, loads, hlen, hrow⟩

/-- C6 witness at a concrete single-core run. -/
theorem csv_row_shape_witness :
    count_cpus cexInitLines ≠ 0 ∧
      ∃ dataRows, (cpu_load_main cexInitLines cexInitLines [(0, cexTickLines)]).rows =
          headerRow (count_cpus cexInitLines) :: dataRows ∧
        (headerRow (count_cpus cexInitLines)).length = 1 + count_cpus cexInitLines ∧
        headerRow (count_cpus cexInitLines) ∉ dataRows ∧
        ∀ row ∈ dataRows, row.length = 1 + count_cpus cexInitLines ∧
          ∃ t loads, List.length loads = count_cpus cexInitLines ∧
            row = formatFixed 6 t :: loads.map (formatFixed 2) :=
  ⟨by decide, csv_row_shape cexInitLines cexInitLines [(0, cexTickLines)] (by decide)⟩

/-- C7: the signal handler only sets the `done` flag, and whenever the
emission-loop machine has exited, the status is 0, the state array was
freed, the file handle closed, and the chunks on stdout are exactly a whole
number of complete rows — an iteration in flight when the signal arrives
always finishes its row before the loop exits. -/
theorem signal_clean_shutdown :
    (∀ (rows : Nat → List String) (s : LoopState),
        applyEvent rows LoopEvent.sigterm s = { s with done := true }) ∧
      ∀ (rows : Nat → List String) (evts : List LoopEvent) (c : Nat),
        (runLoop rows evts).exited = some c →
          c = 0 ∧ (runLoop rows evts).freed = true ∧
            (runLoop rows evts).closed = true ∧
            ∃ k, (runLoop rows evts).out = flatRows rows k := by
  constructor
  · intro rows s
    rfl
  · intro rows evts c
    have hinv := LoopInv_run rows evts
    revert hinv
    generalize runLoop rows evts = st
    obtain ⟨pc, iter, done, out, freed, closed, exited⟩ := st
    intro hinv hex
    cases pc with
    | check =>
      obtain ⟨h1, h2, h3, h4⟩ := hinv
      rw [h2] at hex
      cases hex
    | emit rest =>
      obtain ⟨h1, h2, h3, h4⟩ := hinv
      rw [h2] at hex
      cases hex
    | sleeping =>
      obtain ⟨h1, h2, h3, h4⟩ := hinv
      rw [h2] at hex
      cases hex
    | freeing =>
      obtain ⟨h1, h2, h3, h4⟩ := hinv
      rw [h2] at hex
      cases hex
    | closing =>
      obtain ⟨h1, h2, h3, h4⟩ := hinv
      rw [h2] at hex
      cases hex
    | finished =>
      obtain ⟨h1, h2, h3, h4⟩ := hinv
      rw [h2] at hex
      injection hex with hc
      exact ⟨hc.symm, h3, h4, iter, h1⟩

/-- C7 witness: a run whose signal arrives mid-row still exits cleanly. -/
theorem signal_clean_shutdown_witness :
    (runLoop demoRows demoEvents).exited = some 0 ∧
      (0 = 0 ∧ (runLoop demoRows demoEvents).freed = true ∧
        (runLoop demoRows demoEvents).closed = true ∧
        ∃ k, (runLoop demoRows demoEvents).out = flatRows demoRows k) :=
  ⟨by decide, signal_clean_shutdown.2 demoRows demoEvents 0 (by decide)⟩

/-- C8: the five exit outcomes carry pairwise distinct status codes; clean
shutdown after a termination signal is 0, every failure outcome is nonzero,
and the zero-cores code differs from the open-failure code. -/
theorem exit_codes_distinct :
    (∀ a b : ExitCause, exit_code a = exit_code b → a = b) ∧
      exit_code ExitCause.termSignal = 0 ∧
      (∀ a : ExitCause, a ≠ ExitCause.termSignal → exit_code a ≠ 0) ∧
      exit_code ExitCause.zeroCores ≠ exit_code ExitCause.openFailed := by
  decide

/-- C8 witness at concrete causes. -/
theorem exit_codes_distinct_witness :
    ExitCause.zeroCores = ExitCause.zeroCores ∧
      exit_code ExitCause.helpRequested ≠ 0 :=
  ⟨exit_codes_distinct.1 ExitCause.zeroCores ExitCause.zeroCores (by decide),
    exit_codes_distinct.2.2.1 ExitCause.helpRequested (by decide)⟩

/-- C9: for every file content and memory, the parser accepts at most
`num_cpus` lines and never writes any entry at index `num_cpus` or beyond,
even when more per-core lines match. -/
theorem parse_cpu_stats_bounds (lines : List (List Char)) (m : Mem) (n : Nat) :
    (parse_cpu_stats lines m n).1 ≤ n ∧
      ∀ i, n ≤ i → (parse_cpu_stats lines m n).2 i = m i :=
  ⟨parseGo_count_le n lines 0 m (Nat.zero_le n),
    fun i hi => parseGo_frame_ge n lines 0 m i hi⟩

/-- C9 witness: a concrete out-of-range entry is untouched. -/
theorem parse_cpu_stats_bounds_witness :
    (parse_cpu_stats demoLines demoMem 1).1 ≤ 1 ∧
      (parse_cpu_stats demoLines demoMem 1).2 3 = demoMem 3 :=
  ⟨(parse_cpu_stats_bounds demoLines demoMem 1).1,
    (parse_cpu_stats_bounds demoLines demoMem 1).2 3 (by decide)⟩

/-- C10 counterexample: on the single line `cpu0 5` the full 11-conversion
parse fails after `sscanf` has already stored `user = 5`, so the returned
count is 0 yet entry 0 — an index `≥ k` — had its current snapshot
modified, contradicting the claim that entries at index `≥ k` keep their
snapshots. -/
theorem parse_partial_write_cex :
    (parse_cpu_stats demoLines demoMem 1).1 = 0 ∧
      ((parse_cpu_stats demoLines demoMem 1).2 0).current.user = 5 ∧
      (demoMem 0).current.user = 7 := by
  decide

/-- C10 (amended): `parse_cpu_stats` never modifies any `previous`
snapshot; every entry strictly beyond the returned count `k` is left
completely unchanged (the entry at index `k` itself may have leading
current fields overwritten by a partially matching line); and an entry
beyond `k` whose snapshots were equal — as after the end-of-iteration
`previous := current` copy — still reports load `0.0`. -/
theorem parse_frame_amended (lines : List (List Char)) (m : Mem) (n i : Nat) :
    ((parse_cpu_stats lines m n).2 i).previous = (m i).previous ∧
      ((parse_cpu_stats lines m n).1 < i → (parse_cpu_stats lines m n).2 i = m i) ∧
      ((parse_cpu_stats lines m n).1 < i → (m i).current = (m i).previous →
        calculate_cpu_load ((parse_cpu_stats lines m n).2 i).current
          ((parse_cpu_stats lines m n).2 i).previous = 0) := by
  refine ⟨parse_previous lines m n i, fun hi => parse_count_gt lines m n i hi, ?_⟩
  intro hi heq
  rw [parse_count_gt lines m n i hi, heq]
  exact calculate_self _

/-- C10 witness at a concrete entry beyond the returned count. -/
theorem parse_frame_amended_witness :
    ((parse_cpu_stats demoLines demoMem 1).2 2).previous = (demoMem 2).previous ∧
      (parse_cpu_stats demoLines demoMem 1).2 2 = demoMem 2 ∧
      calculate_cpu_load ((parse_cpu_stats demoLines demoMem 1).2 2).current
        ((parse_cpu_stats demoLines demoMem 1).2 2).previous = 0 :=
  ⟨(parse_frame_amended demoLines demoMem 1 2).1,
    (parse_frame_amended demoLines demoMem 1 2).2.1 (by decide),
    (parse_frame_amended demoLines demoMem 1 2).2.2 (by decide) (by decide)⟩

end RatReduction
